import Mathlib

/-!
Shallow embedding of the graylog GELF chunked-UDP client
(`src/reduce-reuse-recycle/reduce.go` and the pooled variant).

Byte slices are modelled as `List Nat` (each element one byte value).
The gzip codec is out of scope for the repository (an opaque streaming
compressor), so `Write` is parameterised by a `compress` function; the
round-trip claims take the decompressor as a second parameter together
with the inverse hypothesis.  The packet transport is modelled by a
`sendOk` predicate on the per-message chunk index: `sendOk i = true`
means the i-th `WriteTo` call of this `Write` succeeds.
-/

namespace Graylog

/-- Constants from the `const` block of reduce.go. -/
def mtuSize : Nat := 1500

/-- Max chunk payload size, based on MTU of 1500 and chunked GELF over UDP. -/
def maxChunkSize : Nat := 1420

/-- Max chunk count, based on 1-byte int sequence max. -/
def maxChunkCount : Nat := 128

/-- First GELF magic byte. -/
def gelfMagicByteA : Nat := 0x1e

/-- Second GELF magic byte. -/
def gelfMagicByteB : Nat := 0x0f

/-- Size of the fixed chunk header: 2 magic bytes, 8 ID bytes, 2 sequence bytes. -/
def chunkHeaderSize : Nat := 12

/-- `unicode.IsSpace` restricted to single-byte (ASCII) runes:
tab, newline, vertical tab, form feed, carriage return, space. -/
def isSpace (b : Nat) : Bool :=
  b == 9 || b == 10 || b == 11 || b == 12 || b == 13 || b == 32

/-- `bytes.TrimFunc`: drop the longest run of bytes satisfying `f`
from both ends. -/
def trimFunc (f : Nat → Bool) (p : List Nat) : List Nat :=
  ((p.dropWhile f).reverse.dropWhile f).reverse

/-- `bytes.TrimFunc(p, unicode.IsSpace)`. -/
def trimSpace (p : List Nat) : List Nat := trimFunc isSpace p

/-- `bytes.HasSuffix(p, []byte("\n"))`: the last byte is 0x0A. -/
def hasNewlineSuffix (p : List Nat) : Bool := p.getLast? == some 10

/-- `binary.LittleEndian.PutUint32`: four bytes, least significant first. -/
def putUint32LE (x : Nat) : List Nat :=
  [x % 256, x / 256 % 256, x / 65536 % 256, x / 16777216 % 256]

/-- Read four bytes back as a little-endian 32-bit value. -/
def decodeUint32LE : List Nat → Nat
  | [a, b, c, d] => a + 256 * b + 65536 * c + 16777216 * d
  | _ => 0

/-- The client state that `Write` and `messageID` touch: the 4-byte random
instance tag and the uint32 message counter (kept reduced mod 2^32). -/
structure Client where
  instanceID : List Nat
  messageCount : Nat
deriving DecidableEq, Repr

/-- `Client.messageID`: increment the counter (uint32 wrap-around), then
return instanceID ‖ little-endian counter, together with the new state. -/
def Client.messageID (gl : Client) : List Nat × Client :=
  let newCount := (gl.messageCount + 1) % 2 ^ 32
  (gl.instanceID ++ putUint32LE newCount, { gl with messageCount := newCount })

/-- The per-call errors `Client.Write` can return. -/
inductive WriteError where
  | missingNewline
  | messageExceedsMaximumSize (length : Nat)
  | transportError (i : Nat)
deriving DecidableEq, Repr

/-- `count, rem := length/maxChunkSize, length%maxChunkSize; if rem > 0 { count++ }`. -/
def chunkCount (length : Nat) : Nat :=
  length / maxChunkSize + (if length % maxChunkSize > 0 then 1 else 0)

/-- One packet as assembled in the loop body: magic bytes, message ID,
sequence index byte, total-count byte (both stored as `uint8`), payload. -/
def mkPacket (id : List Nat) (i count : Nat) (payload : List Nat) : List Nat :=
  gelfMagicByteA :: gelfMagicByteB :: (id ++ i % 256 :: count % 256 :: payload)

/-- The chunk-emission loop `for i := 0; i < count; i++`.  `fuel` counts the
remaining iterations (`count - i`); `buf` is the unread part of the
accumulator, drained `maxChunkSize` bytes at a time from the front.
Returns the packets handed to `conn.WriteTo` that succeeded, and the error
of the first failing send, if any (the failing packet is not delivered). -/
def writeLoop (sendOk : Nat → Bool) (id : List Nat) (count : Nat) :
    Nat → Nat → List Nat → List (List Nat) × Option WriteError
  | _, 0, _ => ([], none)
  | i, fuel + 1, buf =>
    if sendOk i then
      let r := writeLoop sendOk id count (i + 1) fuel (buf.drop maxChunkSize)
      (mkPacket id i count (buf.take maxChunkSize) :: r.1, r.2)
    else ([], some (WriteError.transportError i))

/-- What one `Client.Write` call produces: the returned `(n, err)` pair, the
packets actually delivered to the transport, and the client state after. -/
structure WriteResult where
  n : Nat
  err : Option WriteError
  sent : List (List Nat)
  client : Client
deriving DecidableEq, Repr

/-- `Client.Write` (per-call-buffer variant of reduce.go): validate, trim,
compress into a fresh accumulator, compute the chunk count, enforce the
maximum, then emit and send the chunks in index order. -/
def Client.Write (gl : Client) (compress : List Nat → List Nat) (sendOk : Nat → Bool)
    (p : List Nat) : WriteResult :=
  if p.length = 0 then ⟨0, none, [], gl⟩
  else if hasNewlineSuffix p = false then ⟨0, some WriteError.missingNewline, [], gl⟩
  else
    let tr := trimSpace p
    let compressed := compress tr
    let count := chunkCount compressed.length
    if count > maxChunkCount then
      ⟨0, some (WriteError.messageExceedsMaximumSize compressed.length), [], gl⟩
    else
      let idc := gl.messageID
      let r := writeLoop sendOk idc.1 count 0 count compressed
      match r.2 with
      | some e => ⟨0, some e, r.1, idc.2⟩
      | none => ⟨tr.length, none, r.1, idc.2⟩

/-- The ids produced by `n` sequential `messageID` calls, in call order. -/
def runIDs (gl : Client) : Nat → List (List Nat)
  | 0 => []
  | n + 1 =>
    let r := gl.messageID
    r.1 :: runIDs r.2 n

/-- The shared-buffer variant of the client (second variant in reduce.go):
the encoding resource (gzip writer + accumulator) lives on the client,
guarded by `writeMux`.  `buf` is the accumulator's contents; `zipInput` is
what has been written into the compressor since its last `Reset`. -/
structure SClient where
  instanceID : List Nat
  messageCount : Nat
  buf : List Nat
  zipInput : List Nat
deriving DecidableEq, Repr

/-- Result of one `SClient.Write` call. -/
structure SWriteResult where
  n : Nat
  err : Option WriteError
  sent : List (List Nat)
  client : SClient
deriving DecidableEq, Repr

/-- `Client.Write`, shared-buffer variant: identical pipeline, but the
compressor writes into the client-owned accumulator (appending after any
stale contents), and the deferred `buf.Reset(); zip.Reset(&buf)` empties
both on every exit path past the validation checks.  `zip.Close`
materialises `compress` of everything written since the last reset. -/
def SClient.Write (gl : SClient) (compress : List Nat → List Nat) (sendOk : Nat → Bool)
    (p : List Nat) : SWriteResult :=
  if p.length = 0 then ⟨0, none, [], gl⟩
  else if hasNewlineSuffix p = false then ⟨0, some WriteError.missingNewline, [], gl⟩
  else
    let tr := trimSpace p
    let buf1 := gl.buf ++ compress (gl.zipInput ++ tr)
    let count := chunkCount buf1.length
    if count > maxChunkCount then
      ⟨0, some (WriteError.messageExceedsMaximumSize buf1.length), [],
        { gl with buf := [], zipInput := [] }⟩
    else
      let newCount := (gl.messageCount + 1) % 2 ^ 32
      let id := gl.instanceID ++ putUint32LE newCount
      let r := writeLoop sendOk id count 0 count buf1
      let gl1 : SClient := { gl with buf := [], zipInput := [], messageCount := newCount }
      match r.2 with
      | some e => ⟨0, some e, r.1, gl1⟩
      | none => ⟨tr.length, none, r.1, gl1⟩

/-- The pooled variant's reusable `message` resource (src/unnamed/part_000):
accumulator, compressor input since last reset, and the message id. -/
structure PoolMessage where
  buf : List Nat
  zipInput : List Nat
  id : List Nat
deriving DecidableEq, Repr

/-- `Client.freeMessage` (pooled variant): `buf.Reset()`, `zip.Reset(&buf)`,
and the id is overwritten with eight zero bytes before the resource goes
back in the pool. -/
def freeMessage (_ : PoolMessage) : PoolMessage :=
  { buf := [], zipInput := [], id := List.replicate 8 0 }

/-- gzip.NoCompression. -/
def gzipNoCompression : Int := 0

/-- gzip.BestSpeed. -/
def gzipBestSpeed : Int := 1

/-- gzip.BestCompression. -/
def gzipBestCompression : Int := 9

/-- gzip.DefaultCompression. -/
def gzipDefaultCompression : Int := -1

/-- `Config`: compression level, optional server address, optional packet
connection (both interface values, hence nilable). -/
structure Config (Addr Conn : Type) where
  compressionLevel : Int
  serverAddr : Option Addr
  clientPacketConn : Option Conn

/-- The client as `New` builds it, with its configured collaborators. -/
structure BuiltClient (Addr Conn : Type) where
  compressionLevel : Int
  instanceID : List Nat
  addr : Option Addr
  conn : Conn
  messageCount : Nat

/-- `New`: reject a nil connection, then an invalid compression level, then
read 4 random bytes for the instance tag (`randRead = none` models a failing
random source).  The server address is stored without any validation. -/
def New {Addr Conn : Type} (randRead : Option (List Nat)) (c : Config Addr Conn) :
    Except String (BuiltClient Addr Conn) :=
  match c.clientPacketConn with
  | none => Except.error "cannot create new Client without a connection"
  | some conn =>
    if c.compressionLevel ≠ gzipNoCompression ∧ c.compressionLevel ≠ gzipDefaultCompression ∧
        (c.compressionLevel > gzipBestCompression ∨ c.compressionLevel < gzipBestSpeed) then
      Except.error "compression level is not a valid compression level"
    else
      match randRead with
      | none => Except.error "creating unique ID for logging client"
      | some bytes => Except.ok ⟨c.compressionLevel, bytes.take 4, c.serverAddr, conn, 0⟩

/-! ## Helper lemmas -/

theorem chunkMap_shift (id : List Nat) (count i m : Nat) (buf : List Nat) :
    (List.range (m + 1)).map (fun k =>
        mkPacket id (i + k) count ((buf.drop (k * maxChunkSize)).take maxChunkSize))
      = mkPacket id i count (buf.take maxChunkSize) ::
        (List.range m).map (fun k =>
          mkPacket id (i + 1 + k) count
            (((buf.drop maxChunkSize).drop (k * maxChunkSize)).take maxChunkSize)) := by
  rw [List.range_succ_eq_map, List.map_cons, List.map_map]
  refine List.cons_eq_cons.mpr ⟨by simp, ?_⟩
  refine List.map_congr_left ?_
  intro k _
  have h1 : i + Nat.succ k = i + 1 + k := by omega
  have h2 : (buf.drop maxChunkSize).drop (k * maxChunkSize)
      = buf.drop (Nat.succ k * maxChunkSize) := by
    rw [List.drop_drop]
    congr 1
    rw [Nat.succ_mul, Nat.add_comm]
  simp only [Function.comp]
  rw [h1, h2]

theorem writeLoop_ok (sendOk : Nat → Bool) (hsend : ∀ j, sendOk j = true)
    (id : List Nat) (count : Nat) :
    ∀ (fuel i : Nat) (buf : List Nat),
      writeLoop sendOk id count i fuel buf =
        ((List.range fuel).map (fun k =>
          mkPacket id (i + k) count ((buf.drop (k * maxChunkSize)).take maxChunkSize)),
         none) := by
  intro fuel
  induction fuel with
  | zero => intro i buf; rfl
  | succ n ih =>
    intro i buf
    rw [writeLoop, hsend i]
    simp only [if_true]
    rw [ih (i + 1) (buf.drop maxChunkSize), chunkMap_shift]

theorem writeLoop_fail (sendOk : Nat → Bool) (id : List Nat) (count f : Nat)
    (hfail : sendOk f = false) (hok : ∀ j, j < f → sendOk j = true) :
    ∀ (fuel i : Nat) (buf : List Nat), i ≤ f → f < i + fuel →
      writeLoop sendOk id count i fuel buf =
        ((List.range (f - i)).map (fun k =>
          mkPacket id (i + k) count ((buf.drop (k * maxChunkSize)).take maxChunkSize)),
         some (WriteError.transportError f)) := by
  intro fuel
  induction fuel with
  | zero => intro i buf h1 h2; omega
  | succ n ih =>
    intro i buf h1 h2
    by_cases hif : i = f
    · subst hif
      rw [writeLoop, hfail]
      simp
    · have hilt : i < f := by omega
      rw [writeLoop, hok i hilt]
      simp only [if_true]
      rw [ih (i + 1) (buf.drop maxChunkSize) (by omega) (by omega)]
      have hfi : f - i = (f - (i + 1)) + 1 := by omega
      rw [hfi, chunkMap_shift]

theorem flatten_chunks (n : Nat) : ∀ (l : List Nat), l.length ≤ n * maxChunkSize →
    ((List.range n).map (fun k => (l.drop (k * maxChunkSize)).take maxChunkSize)).flatten = l := by
  induction n with
  | zero =>
    intro l hl
    have : l = [] := List.length_eq_zero.mp (by omega)
    subst this
    rfl
  | succ m ih =>
    intro l hl
    rw [List.range_succ_eq_map, List.map_cons, List.map_map]
    have htail : (List.map ((fun k => (l.drop (k * maxChunkSize)).take maxChunkSize) ∘ Nat.succ)
        (List.range m)) = (List.range m).map
          (fun k => ((l.drop maxChunkSize).drop (k * maxChunkSize)).take maxChunkSize) := by
      refine List.map_congr_left ?_
      intro k _
      have h2 : (l.drop maxChunkSize).drop (k * maxChunkSize)
          = l.drop (Nat.succ k * maxChunkSize) := by
        rw [List.drop_drop]
        congr 1
        rw [Nat.succ_mul, Nat.add_comm]
      simp only [Function.comp]
      rw [h2]
    rw [htail]
    have hlen : (l.drop maxChunkSize).length ≤ m * maxChunkSize := by
      rw [List.length_drop]
      have h3 : (m + 1) * maxChunkSize = m * maxChunkSize + maxChunkSize := by
        rw [Nat.add_mul, Nat.one_mul]
      omega
    simp only [List.flatten_cons]
    rw [ih (l.drop maxChunkSize) hlen]
    simp

theorem le_chunkCount_mul (L : Nat) : L ≤ chunkCount L * maxChunkSize := by
  simp only [chunkCount, maxChunkSize]
  split <;> omega

theorem chunkCount_eq_one (L : Nat) (h0 : 0 < L) (h1 : L ≤ maxChunkSize) :
    chunkCount L = 1 := by
  simp only [chunkCount, maxChunkSize] at *
  split <;> omega

theorem mkPacket_drop_header (id : List Nat) (hid : id.length = 8) (i count : Nat)
    (payload : List Nat) :
    (mkPacket id i count payload).drop chunkHeaderSize = payload := by
  simp only [mkPacket, chunkHeaderSize]
  rw [List.drop_succ_cons, List.drop_succ_cons]
  have h10 : (10 : Nat) = id.length + 2 := by omega
  rw [h10, List.drop_append]
  rfl

theorem decode_putUint32LE (x : Nat) : decodeUint32LE (putUint32LE x) = x % 2 ^ 32 := by
  simp only [putUint32LE, decodeUint32LE]
  omega

theorem putUint32LE_length (x : Nat) : (putUint32LE x).length = 4 := rfl

theorem Write_ok (gl : Client) (compress : List Nat → List Nat) (sendOk : Nat → Bool)
    (p : List Nat) (hp : p ≠ []) (hn : hasNewlineSuffix p = true)
    (hcount : chunkCount (compress (trimSpace p)).length ≤ maxChunkCount)
    (hsend : ∀ j, sendOk j = true) :
    gl.Write compress sendOk p =
      ⟨(trimSpace p).length, none,
        (List.range (chunkCount (compress (trimSpace p)).length)).map (fun k =>
          mkPacket (gl.instanceID ++ putUint32LE ((gl.messageCount + 1) % 2 ^ 32)) k
            (chunkCount (compress (trimSpace p)).length)
            (((compress (trimSpace p)).drop (k * maxChunkSize)).take maxChunkSize)),
        { gl with messageCount := (gl.messageCount + 1) % 2 ^ 32 }⟩ := by
  have h0 : ¬ (p.length = 0) := fun h => hp (List.length_eq_zero.mp h)
  have h1 : ¬ (hasNewlineSuffix p = false) := by simp [hn]
  have h2 : ¬ (chunkCount (compress (trimSpace p)).length > maxChunkCount) := by omega
  simp only [Client.Write, if_neg h0, if_neg h1, if_neg h2, Client.messageID]
  rw [writeLoop_ok sendOk hsend]
  simp

theorem Write_fail (gl : Client) (compress : List Nat → List Nat) (sendOk : Nat → Bool)
    (p : List Nat) (f : Nat) (hp : p ≠ []) (hn : hasNewlineSuffix p = true)
    (hcount : chunkCount (compress (trimSpace p)).length ≤ maxChunkCount)
    (hf : f < chunkCount (compress (trimSpace p)).length)
    (hfail : sendOk f = false) (hok : ∀ j, j < f → sendOk j = true) :
    gl.Write compress sendOk p =
      ⟨0, some (WriteError.transportError f),
        (List.range f).map (fun k =>
          mkPacket (gl.instanceID ++ putUint32LE ((gl.messageCount + 1) % 2 ^ 32)) k
            (chunkCount (compress (trimSpace p)).length)
            (((compress (trimSpace p)).drop (k * maxChunkSize)).take maxChunkSize)),
        { gl with messageCount := (gl.messageCount + 1) % 2 ^ 32 }⟩ := by
  have h0 : ¬ (p.length = 0) := fun h => hp (List.length_eq_zero.mp h)
  have h1 : ¬ (hasNewlineSuffix p = false) := by simp [hn]
  have h2 : ¬ (chunkCount (compress (trimSpace p)).length > maxChunkCount) := by omega
  simp only [Client.Write, if_neg h0, if_neg h1, if_neg h2, Client.messageID]
  rw [writeLoop_fail sendOk _ _ f hfail hok _ 0 _ (by omega) (by omega)]
  simp

theorem SWrite_ok (gl : SClient) (compress : List Nat → List Nat) (sendOk : Nat → Bool)
    (p : List Nat) (hp : p ≠ []) (hn : hasNewlineSuffix p = true)
    (hcount : chunkCount (gl.buf ++ compress (gl.zipInput ++ trimSpace p)).length
      ≤ maxChunkCount)
    (hsend : ∀ j, sendOk j = true) :
    gl.Write compress sendOk p =
      ⟨(trimSpace p).length, none,
        (List.range (chunkCount (gl.buf ++ compress (gl.zipInput ++ trimSpace p)).length)).map
          (fun k =>
            mkPacket (gl.instanceID ++ putUint32LE ((gl.messageCount + 1) % 2 ^ 32)) k
              (chunkCount (gl.buf ++ compress (gl.zipInput ++ trimSpace p)).length)
              (((gl.buf ++ compress (gl.zipInput ++ trimSpace p)).drop
                (k * maxChunkSize)).take maxChunkSize)),
        { gl with buf := [], zipInput := [],
                  messageCount := (gl.messageCount + 1) % 2 ^ 32 }⟩ := by
  have h0 : ¬ (p.length = 0) := fun h => hp (List.length_eq_zero.mp h)
  have h1 : ¬ (hasNewlineSuffix p = false) := by simp [hn]
  have h2 : ¬ (chunkCount (gl.buf ++ compress (gl.zipInput ++ trimSpace p)).length
      > maxChunkCount) := by omega
  simp only [SClient.Write, if_neg h0, if_neg h1, if_neg h2]
  rw [writeLoop_ok sendOk hsend]
  simp

theorem runIDs_length (gl : Client) (n : Nat) : (runIDs gl n).length = n := by
  induction n generalizing gl with
  | zero => rfl
  | succ m ih => simp [runIDs, ih]

theorem runIDs_getElem? (n : Nat) :
    ∀ (k : Nat) (gl : Client), k < n →
      (runIDs gl n)[k]? =
        some (gl.instanceID ++ putUint32LE ((gl.messageCount + k + 1) % 2 ^ 32)) := by
  induction n with
  | zero => intro k gl hk; omega
  | succ m ih =>
    intro k gl hk
    match k with
    | 0 => simp [runIDs, Client.messageID]
    | j + 1 =>
      have hj : j < m := by omega
      simp only [runIDs, Client.messageID, List.getElem?_cons_succ]
      rw [ih j _ hj]
      have harith : ((gl.messageCount + 1) % 4294967296 + j + 1) % 4294967296
          = (gl.messageCount + (j + 1) + 1) % 4294967296 := by omega
      simp [harith]

/-! ## Claim theorems -/

/-- Claim C1: for a non-empty newline-terminated input whose compressed form
fits within the chunk-count limit, concatenating the payload slices of the
emitted chunks in sequence-index order and gzip-decompressing the
concatenation reproduces exactly the input with leading/trailing whitespace
stripped (the codec is opaque, so the decompressor being a left inverse of
the compressor at that point is a hypothesis). -/
theorem chunk_reassembly_roundtrip (gl : Client) (compress decompress : List Nat → List Nat)
    (sendOk : Nat → Bool) (p : List Nat)
    (hp : p ≠ []) (hn : hasNewlineSuffix p = true)
    (hid : gl.instanceID.length = 4)
    (hcount : chunkCount (compress (trimSpace p)).length ≤ maxChunkCount)
    (hsend : ∀ j, sendOk j = true)
    (hinv : decompress (compress (trimSpace p)) = trimSpace p) :
    decompress (((gl.Write compress sendOk p).sent.map
      (fun ch => ch.drop chunkHeaderSize)).flatten) = trimSpace p := by
  rw [Write_ok gl compress sendOk p hp hn hcount hsend]
  have hid8 : (gl.instanceID ++ putUint32LE ((gl.messageCount + 1) % 2 ^ 32)).length = 8 := by
    simp [hid, putUint32LE_length]
  simp only [List.map_map]
  have hmap : List.map ((fun ch => ch.drop chunkHeaderSize) ∘ (fun k =>
      mkPacket (gl.instanceID ++ putUint32LE ((gl.messageCount + 1) % 2 ^ 32)) k
        (chunkCount (compress (trimSpace p)).length)
        (((compress (trimSpace p)).drop (k * maxChunkSize)).take maxChunkSize)))
      (List.range (chunkCount (compress (trimSpace p)).length))
      = (List.range (chunkCount (compress (trimSpace p)).length)).map (fun k =>
          ((compress (trimSpace p)).drop (k * maxChunkSize)).take maxChunkSize) := by
    refine List.map_congr_left ?_
    intro k _
    simp only [Function.comp]
    exact mkPacket_drop_header _ hid8 _ _ _
  rw [hmap, flatten_chunks _ _ (le_chunkCount_mul _), hinv]

/-- Witness for the C1 theorem at a concrete client, codec and input. -/
theorem chunk_reassembly_roundtrip_witness :
    chunkCount ((fun xs => 7 :: xs) (trimSpace [104, 105, 10])).length ≤ maxChunkCount
    ∧ (fun xs => List.drop 1 xs)
        ((((Client.mk [1, 2, 3, 4] 0).Write (fun xs => 7 :: xs) (fun _ => true)
          [104, 105, 10]).sent.map (fun ch => ch.drop chunkHeaderSize)).flatten)
        = trimSpace [104, 105, 10] :=
  ⟨by decide,
   chunk_reassembly_roundtrip (Client.mk [1, 2, 3, 4] 0) (fun xs => 7 :: xs)
     (fun xs => List.drop 1 xs) (fun _ => true) [104, 105, 10]
     (by decide) (by decide) (by decide) (by decide) (fun _ => rfl) (by decide)⟩

/-- Claim C2: with every transport send succeeding, Write emits exactly
`count` chunks in strictly increasing index order, each laid out as the two
magic bytes 0x1E 0x0F, the same 8-byte message id, one byte with the chunk
index, one byte with the total count, and at most 1420 payload bytes drained
from the front of the compressed accumulator. -/
theorem chunk_emission_layout (gl : Client) (compress : List Nat → List Nat)
    (sendOk : Nat → Bool) (p : List Nat)
    (hp : p ≠ []) (hn : hasNewlineSuffix p = true)
    (hid : gl.instanceID.length = 4)
    (hcount : chunkCount (compress (trimSpace p)).length ≤ maxChunkCount)
    (hsend : ∀ j, sendOk j = true) :
    (gl.Write compress sendOk p).sent
      = (List.range (chunkCount (compress (trimSpace p)).length)).map (fun i =>
          gelfMagicByteA :: gelfMagicByteB ::
            ((gl.instanceID ++ putUint32LE ((gl.messageCount + 1) % 2 ^ 32)) ++
              i :: chunkCount (compress (trimSpace p)).length ::
                ((compress (trimSpace p)).drop (i * maxChunkSize)).take maxChunkSize))
    ∧ (gl.instanceID ++ putUint32LE ((gl.messageCount + 1) % 2 ^ 32)).length = 8
    ∧ ∀ ch ∈ (gl.Write compress sendOk p).sent,
        (ch.drop chunkHeaderSize).length ≤ maxChunkSize := by
  have hid8 : (gl.instanceID ++ putUint32LE ((gl.messageCount + 1) % 2 ^ 32)).length = 8 := by
    simp [hid, putUint32LE_length]
  rw [Write_ok gl compress sendOk p hp hn hcount hsend]
  refine ⟨?_, hid8, ?_⟩
  · refine List.map_congr_left ?_
    intro i hi
    have hi2 : i < chunkCount (compress (trimSpace p)).length := List.mem_range.mp hi
    have hcnt256 : chunkCount (compress (trimSpace p)).length % 256
        = chunkCount (compress (trimSpace p)).length := by
      have : maxChunkCount = 128 := rfl
      omega
    have hi256 : i % 256 = i := by
      have : maxChunkCount = 128 := rfl
      omega
    simp only [mkPacket, hcnt256, hi256]
  · intro ch hch
    simp only [List.mem_map] at hch
    obtain ⟨i, _, rfl⟩ := hch
    rw [mkPacket_drop_header _ hid8]
    exact le_trans (List.length_take_le _ _) (le_refl _)

/-- Witness for the C2 theorem at a concrete client, codec and input. -/
theorem chunk_emission_layout_witness :
    chunkCount ((fun xs => 7 :: xs) (trimSpace [104, 105, 10])).length ≤ maxChunkCount
    ∧ ((Client.mk [1, 2, 3, 4] 0).Write (fun xs => 7 :: xs) (fun _ => true)
        [104, 105, 10]).sent
      = (List.range (chunkCount ((fun xs => 7 :: xs)
          (trimSpace [104, 105, 10])).length)).map (fun i =>
          gelfMagicByteA :: gelfMagicByteB ::
            (([1, 2, 3, 4] ++ putUint32LE ((0 + 1) % 2 ^ 32)) ++
              i :: chunkCount ((fun xs => 7 :: xs) (trimSpace [104, 105, 10])).length ::
                (((fun xs => 7 :: xs) (trimSpace [104, 105, 10])).drop
                  (i * maxChunkSize)).take maxChunkSize)) :=
  ⟨by decide,
   (chunk_emission_layout (Client.mk [1, 2, 3, 4] 0) (fun xs => 7 :: xs) (fun _ => true)
     [104, 105, 10] (by decide) (by decide) (by decide) (by decide) (fun _ => rfl)).1⟩

/-- Claim C3: the chunk count is `length / 1420`, incremented when there is a
remainder (so `k*1420` bytes give `k` chunks and `k*1420 + 1` give `k+1`);
when the count exceeds 128, Write returns the "message exceeds maximum size"
error, transmits zero chunks, and leaves the client unchanged. -/
theorem chunk_count_and_oversize (gl : Client) (compress : List Nat → List Nat)
    (sendOk : Nat → Bool) (p : List Nat) :
    (∀ k, chunkCount (k * maxChunkSize) = k)
    ∧ (∀ k, chunkCount (k * maxChunkSize + 1) = k + 1)
    ∧ (p ≠ [] → hasNewlineSuffix p = true →
        chunkCount (compress (trimSpace p)).length > maxChunkCount →
        gl.Write compress sendOk p =
          ⟨0, some (WriteError.messageExceedsMaximumSize (compress (trimSpace p)).length),
            [], gl⟩) := by
  refine ⟨?_, ?_, ?_⟩
  · intro k
    simp only [chunkCount, maxChunkSize]
    have h1 : k * 1420 % 1420 = 0 := Nat.mul_mod_left k 1420
    have h2 : k * 1420 / 1420 = k := Nat.mul_div_cancel k (by norm_num)
    simp [h1, h2]
  · intro k
    simp only [chunkCount, maxChunkSize]
    have h : k * 1420 + 1 = 1420 * k + 1 := by ring
    have h1 : (1420 * k + 1) % 1420 = 1 := by rw [Nat.mul_add_mod]
    have h2 : (1420 * k + 1) / 1420 = k := by rw [Nat.mul_add_div (by norm_num)]; norm_num
    simp [h, h1, h2]
  · intro hp hn hover
    have h0 : ¬ (p.length = 0) := fun h => hp (List.length_eq_zero.mp h)
    have h1 : ¬ (hasNewlineSuffix p = false) := by simp [hn]
    simp only [Client.Write, if_neg h0, if_neg h1, if_pos hover]

/-- Witness for the C3 theorem: exact multiples, the `+1` boundary, and a
codec output of 128*1420 + 1 bytes making Write reject the message. -/
theorem chunk_count_and_oversize_witness :
    chunkCount (3 * maxChunkSize) = 3 ∧ chunkCount (3 * maxChunkSize + 1) = 4
    ∧ (Client.mk [1, 2, 3, 4] 0).Write (fun _ => List.replicate 181761 0) (fun _ => true)
        [104, 10]
      = ⟨0, some (WriteError.messageExceedsMaximumSize
          ((fun (_ : List Nat) => List.replicate 181761 (0 : Nat))
            (trimSpace [104, 10])).length), [], Client.mk [1, 2, 3, 4] 0⟩ := by
  obtain ⟨h1, h2, h3⟩ := chunk_count_and_oversize (Client.mk [1, 2, 3, 4] 0)
    (fun _ => List.replicate 181761 0) (fun _ => true) [104, 10]
  refine ⟨h1 3, h2 3, h3 (by decide) (by decide) ?_⟩
  have hlen : ((fun (_ : List Nat) => List.replicate 181761 (0 : Nat))
      (trimSpace [104, 10])).length = 181761 := List.length_replicate 181761 0
  rw [hlen]
  decide

/-- Claim C4 counterexample: the uint32 counter wraps, so the claim's
distinctness of N sequential ids fails at N = 2^32 + 1: the first and the
(2^32+1)-th id of a concrete client coincide. -/
theorem messageID_distinct_counterexample :
    ¬ (runIDs (Client.mk [0, 0, 0, 0] 0) (2 ^ 32 + 1)).Nodup := by
  intro hnd
  have h0 := runIDs_getElem? (2 ^ 32 + 1) 0 (Client.mk [0, 0, 0, 0] 0) (by omega)
  have h1 := runIDs_getElem? (2 ^ 32 + 1) (2 ^ 32) (Client.mk [0, 0, 0, 0] 0) (by omega)
  have heq : (runIDs (Client.mk [0, 0, 0, 0] 0) (2 ^ 32 + 1))[0]?
      = (runIDs (Client.mk [0, 0, 0, 0] 0) (2 ^ 32 + 1))[2 ^ 32]? := by
    rw [h0, h1]
    norm_num
  have hlen : (0 : Nat) < (runIDs (Client.mk [0, 0, 0, 0] 0) (2 ^ 32 + 1)).length := by
    rw [runIDs_length]
    omega
  have := List.getElem?_inj hlen hnd heq
  omega

/-- Claim C4 (amended): N sequential messageID calls with N ≤ 2^32 yield N
distinct 8-byte values; the first 4 bytes are always the instance tag; the
last 4 bytes, decoded little-endian, increase by exactly 1 (mod 2^32) on
each call.  (For N > 2^32 the uint32 counter wraps and ids repeat.) -/
theorem messageID_sequence (gl : Client) (N : Nat) (hN : N ≤ 2 ^ 32)
    (hid : gl.instanceID.length = 4) :
    (runIDs gl N).Nodup
    ∧ (∀ v ∈ runIDs gl N, v.take 4 = gl.instanceID ∧ v.length = 8)
    ∧ (∀ k, k + 1 < N →
        ((runIDs gl N)[k + 1]?).map (fun v => decodeUint32LE (v.drop 4))
          = ((runIDs gl N)[k]?).map (fun v => (decodeUint32LE (v.drop 4) + 1) % 2 ^ 32)) := by
  have hm : (2 : Nat) ^ 32 = 4294967296 := by norm_num
  refine ⟨?_, ?_, ?_⟩
  · rw [List.nodup_iff_injective_get]
    intro i j hij
    have hlenN := runIDs_length gl N
    have hi : (i : Nat) < N := by have h := i.2; omega
    have hj : (j : Nat) < N := by have h := j.2; omega
    have e1 : (runIDs gl N)[(i : Nat)]? = (runIDs gl N)[(j : Nat)]? := by
      rw [List.getElem?_eq_getElem i.2, List.getElem?_eq_getElem j.2]
      simp only [List.get_eq_getElem] at hij
      rw [hij]
    rw [runIDs_getElem? N i gl hi, runIDs_getElem? N j gl hj] at e1
    have e2 := List.append_cancel_left (Option.some.inj e1)
    have e3 := congrArg decodeUint32LE e2
    rw [decode_putUint32LE, decode_putUint32LE] at e3
    rw [hm] at e3 hN
    have : (i : Nat) = (j : Nat) := by omega
    exact Fin.ext this
  · intro v hv
    obtain ⟨k, hk⟩ := List.mem_iff_getElem?.mp hv
    have hkN : k < N := by
      by_contra hc
      rw [List.getElem?_eq_none (by rw [runIDs_length]; omega)] at hk
      exact Option.noConfusion hk
    rw [runIDs_getElem? N k gl hkN] at hk
    have hv2 : v = gl.instanceID ++ putUint32LE ((gl.messageCount + k + 1) % 2 ^ 32) :=
      (Option.some.inj hk).symm
    subst hv2
    constructor
    · exact List.take_left' hid
    · simp [hid, putUint32LE_length]
  · intro k hk
    rw [runIDs_getElem? N (k + 1) gl (by omega), runIDs_getElem? N k gl (by omega)]
    simp only [Option.map_some']
    rw [List.drop_left' hid, List.drop_left' hid, decode_putUint32LE, decode_putUint32LE]
    rw [hm]
    have : (gl.messageCount + (k + 1) + 1) % 4294967296 % 4294967296
        = ((gl.messageCount + k + 1) % 4294967296 % 4294967296 + 1) % 4294967296 := by
      omega
    rw [this]

/-- Witness for the amended C4 theorem at a concrete client and N = 3. -/
theorem messageID_sequence_witness :
    (runIDs (Client.mk [1, 2, 3, 4] 0) 3).Nodup
    ∧ (∀ v ∈ runIDs (Client.mk [1, 2, 3, 4] 0) 3,
        v.take 4 = [1, 2, 3, 4] ∧ v.length = 8) :=
  ⟨(messageID_sequence (Client.mk [1, 2, 3, 4] 0) 3 (by norm_num) (by decide)).1,
   (messageID_sequence (Client.mk [1, 2, 3, 4] 0) 3 (by norm_num) (by decide)).2.1⟩

theorem SWrite_resets (gl : SClient) (compress : List Nat → List Nat) (sendOk : Nat → Bool)
    (p : List Nat) (hbuf : gl.buf = []) (hzip : gl.zipInput = []) :
    (gl.Write compress sendOk p).client.buf = []
    ∧ (gl.Write compress sendOk p).client.zipInput = []
    ∧ (gl.Write compress sendOk p).client.instanceID = gl.instanceID := by
  simp only [SClient.Write]
  split
  · exact ⟨hbuf, hzip, rfl⟩
  · split
    · exact ⟨hbuf, hzip, rfl⟩
    · split
      · exact ⟨rfl, rfl, rfl⟩
      · split
        · exact ⟨rfl, rfl, rfl⟩
        · exact ⟨rfl, rfl, rfl⟩

/-- Claim C5: the shared-buffer variant's deferred release (`buf.Reset();
zip.Reset(&buf)`), the pool variant's `freeMessage`, and their consequence:
every exit path past the entry checks leaves the accumulator empty and the
compressor rebound to it, so writing message A and then message B through
the reused resource yields chunks for B that decompress to B's own trimmed
bytes, with no bytes of A leaking in. -/
theorem release_resets_no_leak (gl : SClient) (compress decompress : List Nat → List Nat)
    (sendOkA sendOkB : Nat → Bool) (a b : List Nat) (msg : PoolMessage)
    (hbuf : gl.buf = []) (hzip : gl.zipInput = [])
    (hid : gl.instanceID.length = 4) :
    ((gl.Write compress sendOkA a).client.buf = []
      ∧ (gl.Write compress sendOkA a).client.zipInput = [])
    ∧ ((freeMessage msg).buf = [] ∧ (freeMessage msg).zipInput = [])
    ∧ (b ≠ [] → hasNewlineSuffix b = true →
        chunkCount (compress (trimSpace b)).length ≤ maxChunkCount →
        (∀ j, sendOkB j = true) →
        decompress (compress (trimSpace b)) = trimSpace b →
        decompress (((((gl.Write compress sendOkA a).client).Write compress sendOkB b).sent.map
          (fun ch => ch.drop chunkHeaderSize)).flatten) = trimSpace b) := by
  obtain ⟨h1, h2, h3⟩ := SWrite_resets gl compress sendOkA a hbuf hzip
  refine ⟨⟨h1, h2⟩, ⟨rfl, rfl⟩, ?_⟩
  intro hb hn hcount hsend hinv
  set gl1 := (gl.Write compress sendOkA a).client with hgl1
  have hid1 : gl1.instanceID.length = 4 := by rw [h3]; exact hid
  have hcount1 : chunkCount (gl1.buf ++ compress (gl1.zipInput ++ trimSpace b)).length
      ≤ maxChunkCount := by
    rw [h1, h2]
    simpa using hcount
  rw [SWrite_ok gl1 compress sendOkB b hb hn hcount1 hsend]
  have hid8 : (gl1.instanceID ++ putUint32LE ((gl1.messageCount + 1) % 2 ^ 32)).length = 8 := by
    simp [hid1, putUint32LE_length]
  simp only [List.map_map, h1, h2, List.nil_append]
  have hmap : List.map ((fun ch => ch.drop chunkHeaderSize) ∘ (fun k =>
      mkPacket (gl1.instanceID ++ putUint32LE ((gl1.messageCount + 1) % 2 ^ 32)) k
        (chunkCount (compress (trimSpace b)).length)
        (((compress (trimSpace b)).drop (k * maxChunkSize)).take maxChunkSize)))
      (List.range (chunkCount (compress (trimSpace b)).length))
      = (List.range (chunkCount (compress (trimSpace b)).length)).map (fun k =>
          ((compress (trimSpace b)).drop (k * maxChunkSize)).take maxChunkSize) := by
    refine List.map_congr_left ?_
    intro k _
    simp only [Function.comp]
    exact mkPacket_drop_header _ hid8 _ _ _
  rw [hmap, flatten_chunks _ _ (le_chunkCount_mul _), hinv]

/-- Witness for the C5 theorem: a concrete reused client writing "x\n" then
"hi\n"; message B decompresses to its own trimmed bytes. -/
theorem release_resets_no_leak_witness :
    chunkCount (((fun xs => 7 :: xs) (trimSpace [104, 105, 10])) : List Nat).length
      ≤ maxChunkCount
    ∧ (fun xs => List.drop 1 xs)
        (((((SClient.mk [1, 2, 3, 4] 0 [] []).Write (fun xs => 7 :: xs) (fun _ => true)
            [120, 10]).client.Write (fun xs => 7 :: xs) (fun _ => true)
            [104, 105, 10]).sent.map (fun ch => ch.drop chunkHeaderSize)).flatten)
        = trimSpace [104, 105, 10] :=
  ⟨by decide,
   (release_resets_no_leak (SClient.mk [1, 2, 3, 4] 0 [] []) (fun xs => 7 :: xs)
      (fun xs => List.drop 1 xs) (fun _ => true) (fun _ => true) [120, 10] [104, 105, 10]
      (PoolMessage.mk [] [] []) rfl rfl (by decide)).2.2
     (by decide) (by decide) (by decide) (fun _ => rfl) (by decide)⟩

/-- Claim C6: for a valid newline-terminated input whose compressed size
stays within the chunk-count limit, and with every transport send
succeeding, Write returns the number of (trimmed) input bytes consumed by
the compressor and no error. -/
theorem write_returns_count_and_nil (gl : Client) (compress : List Nat → List Nat)
    (sendOk : Nat → Bool) (p : List Nat)
    (hp : p ≠ []) (hn : hasNewlineSuffix p = true)
    (hcount : chunkCount (compress (trimSpace p)).length ≤ maxChunkCount)
    (hsend : ∀ j, sendOk j = true) :
    (gl.Write compress sendOk p).n = (trimSpace p).length
    ∧ (gl.Write compress sendOk p).err = none := by
  rw [Write_ok gl compress sendOk p hp hn hcount hsend]
  exact ⟨rfl, rfl⟩

/-- Witness for the C6 theorem at a concrete client, codec and input. -/
theorem write_returns_count_and_nil_witness :
    ((Client.mk [1, 2, 3, 4] 0).Write (fun xs => 7 :: xs) (fun _ => true)
      [32, 104, 105, 10]).n = (trimSpace [32, 104, 105, 10]).length
    ∧ ((Client.mk [1, 2, 3, 4] 0).Write (fun xs => 7 :: xs) (fun _ => true)
      [32, 104, 105, 10]).err = none :=
  write_returns_count_and_nil (Client.mk [1, 2, 3, 4] 0) (fun xs => 7 :: xs)
    (fun _ => true) [32, 104, 105, 10] (by decide) (by decide) (by decide) (fun _ => rfl)

/-- Claim C7: a non-empty input without a trailing newline makes Write
return ErrMissingNewline with nothing transmitted and the client unchanged;
the empty input returns (0, nil) with nothing transmitted (a no-op
success). -/
theorem missing_newline_and_empty (gl : Client) (compress : List Nat → List Nat)
    (sendOk : Nat → Bool) (p : List Nat) :
    (p ≠ [] → hasNewlineSuffix p = false →
      gl.Write compress sendOk p = ⟨0, some WriteError.missingNewline, [], gl⟩)
    ∧ gl.Write compress sendOk [] = ⟨0, none, [], gl⟩ := by
  constructor
  · intro hp hn
    have h0 : ¬ (p.length = 0) := fun h => hp (List.length_eq_zero.mp h)
    simp only [Client.Write, if_neg h0, if_pos hn]
  · rfl

/-- Witness for the C7 theorem at a concrete newline-less input. -/
theorem missing_newline_and_empty_witness :
    (Client.mk [1, 2, 3, 4] 0).Write (fun xs => 7 :: xs) (fun _ => true) [104, 105]
      = ⟨0, some WriteError.missingNewline, [], Client.mk [1, 2, 3, 4] 0⟩
    ∧ (Client.mk [1, 2, 3, 4] 0).Write (fun xs => 7 :: xs) (fun _ => true) []
      = ⟨0, none, [], Client.mk [1, 2, 3, 4] 0⟩ :=
  ⟨(missing_newline_and_empty (Client.mk [1, 2, 3, 4] 0) (fun xs => 7 :: xs)
      (fun _ => true) [104, 105]).1 (by decide) (by decide),
   (missing_newline_and_empty (Client.mk [1, 2, 3, 4] 0) (fun xs => 7 :: xs)
      (fun _ => true) [104, 105]).2⟩

/-- Claim C8 counterexample: a configuration with NO destination address but
a present transport and a valid compression level makes New succeed — the
claim says every configuration missing the address must fail. -/
theorem new_missing_address_accepted :
    (New (some [5, 6, 7, 8]) (Config.mk 0 none (some 0) : Config Nat Nat)).toOption.isSome
      = true := rfl

/-- Claim C8 (amended): construction fails whenever the transport is absent
(New returns an error and no client); a missing destination address is not
validated at construction and does not cause an error. -/
theorem new_requires_connection {Addr Conn : Type} (randRead : Option (List Nat))
    (c : Config Addr Conn) (h : c.clientPacketConn = none) :
    New randRead c = Except.error "cannot create new Client without a connection" := by
  unfold New
  rw [h]

/-- Witness for the amended C8 theorem at a concrete transport-less config. -/
theorem new_requires_connection_witness :
    New (some [5, 6, 7, 8]) (Config.mk 0 (some 0) none : Config Nat Nat)
      = Except.error "cannot create new Client without a connection" :=
  new_requires_connection (some [5, 6, 7, 8]) (Config.mk 0 (some 0) none) rfl

/-- Claim C9: if the transport fails at chunk index f (all earlier sends
succeeding), Write aborts immediately: it returns a wrapped transport error
and n = 0, and exactly the f chunks already sent before the failure remain
delivered (partial multi-chunk delivery). -/
theorem transport_error_aborts (gl : Client) (compress : List Nat → List Nat)
    (sendOk : Nat → Bool) (p : List Nat) (f : Nat)
    (hp : p ≠ []) (hn : hasNewlineSuffix p = true)
    (hcount : chunkCount (compress (trimSpace p)).length ≤ maxChunkCount)
    (hf : f < chunkCount (compress (trimSpace p)).length)
    (hfail : sendOk f = false) (hok : ∀ j, j < f → sendOk j = true) :
    (gl.Write compress sendOk p).err = some (WriteError.transportError f)
    ∧ (gl.Write compress sendOk p).n = 0
    ∧ (gl.Write compress sendOk p).sent.length = f
    ∧ (gl.Write compress sendOk p).sent
        = (List.range f).map (fun k =>
            mkPacket (gl.instanceID ++ putUint32LE ((gl.messageCount + 1) % 2 ^ 32)) k
              (chunkCount (compress (trimSpace p)).length)
              (((compress (trimSpace p)).drop (k * maxChunkSize)).take maxChunkSize)) := by
  rw [Write_fail gl compress sendOk p f hp hn hcount hf hfail hok]
  refine ⟨rfl, rfl, ?_, rfl⟩
  simp

/-- Witness for the C9 theorem: a two-chunk message whose second send fails;
exactly one chunk was delivered. -/
theorem transport_error_aborts_witness :
    ((Client.mk [1, 2, 3, 4] 0).Write (fun _ => List.replicate 1421 0)
      (fun j => j == 0) [104, 10]).err = some (WriteError.transportError 1)
    ∧ ((Client.mk [1, 2, 3, 4] 0).Write (fun _ => List.replicate 1421 0)
      (fun j => j == 0) [104, 10]).n = 0
    ∧ ((Client.mk [1, 2, 3, 4] 0).Write (fun _ => List.replicate 1421 0)
      (fun j => j == 0) [104, 10]).sent.length = 1 := by
  have hlen : ((fun (_ : List Nat) => List.replicate 1421 (0 : Nat))
      (trimSpace [104, 10])).length = 1421 := List.length_replicate 1421 0
  have h := transport_error_aborts (Client.mk [1, 2, 3, 4] 0)
    (fun _ => List.replicate 1421 0) (fun j => j == 0) [104, 10] 1
    (by decide) (by decide)
    (by rw [hlen]; decide) (by rw [hlen]; decide)
    rfl
    (by
      intro j hj
      have hj0 : j = 0 := by omega
      subst hj0
      rfl)
  exact ⟨h.1, h.2.1, h.2.2.1⟩

/-- Claim C10: an input consisting solely of whitespace and ending with a
newline passes validation, is trimmed to empty, the (non-empty) compressed
empty payload is sent as exactly one chunk, and Write returns (0, nil).
The compressed-empty-stream facts are codec hypotheses (gzip emits a
non-empty header/trailer for empty input, well under one chunk). -/
theorem whitespace_only_line (gl : Client) (compress : List Nat → List Nat)
    (sendOk : Nat → Bool) (p : List Nat)
    (hp : p ≠ []) (hws : ∀ x ∈ p, isSpace x = true)
    (hn : hasNewlineSuffix p = true)
    (hce : 0 < (compress []).length) (hce2 : (compress []).length ≤ maxChunkSize)
    (hsend : ∀ j, sendOk j = true) :
    gl.Write compress sendOk p =
      ⟨0, none,
        [mkPacket (gl.instanceID ++ putUint32LE ((gl.messageCount + 1) % 2 ^ 32)) 0 1
          (compress [])],
        { gl with messageCount := (gl.messageCount + 1) % 2 ^ 32 }⟩ := by
  have htrim : trimSpace p = [] := by
    simp only [trimSpace, trimFunc]
    have h1 : p.dropWhile isSpace = [] := List.dropWhile_eq_nil_iff.mpr hws
    simp [h1]
  have hcnt : chunkCount (compress (trimSpace p)).length = 1 := by
    rw [htrim]
    exact chunkCount_eq_one _ hce hce2
  have hcount : chunkCount (compress (trimSpace p)).length ≤ maxChunkCount := by
    rw [hcnt]
    decide
  rw [Write_ok gl compress sendOk p hp hn hcount hsend]
  rw [htrim] at hcnt ⊢
  rw [hcnt]
  have hr1 : List.range 1 = [0] := rfl
  simp [hr1, List.take_of_length_le hce2]

/-- Witness for the C10 theorem: the single-byte input "\n". -/
theorem whitespace_only_line_witness :
    (Client.mk [1, 2, 3, 4] 0).Write (fun xs => 7 :: xs) (fun _ => true) [10]
      = ⟨0, none,
          [mkPacket ([1, 2, 3, 4] ++ putUint32LE ((0 + 1) % 2 ^ 32)) 0 1
            ((fun xs => 7 :: xs) ([] : List Nat))],
          Client.mk [1, 2, 3, 4] ((0 + 1) % 2 ^ 32)⟩ :=
  whitespace_only_line (Client.mk [1, 2, 3, 4] 0) (fun xs => 7 :: xs) (fun _ => true)
    [10] (by decide) (by decide) (by decide) (by decide) (by decide) (fun _ => rfl)

end Graylog
